import Mathlib

/-!
Verification of the Verdant change-detection and job-orchestration core.

The definitions below are a shallow embedding of the Python sources:

* `engine/change/thresholds.py` — `ChangeThresholds`, `ThresholdClassifier.classify`
* `engine/change/detection.py` — `analyze_period_change`, `create_change_analysis`
* `engine/config.py` — `CHANGE_THRESHOLDS`, `VegChangeConfig`
* `services/change_orchestrator.py` — `AnalysisStatus`, `AnalysisJob`, `JobStore`
  (`create`, `get`, `update`, `_cleanup_old_jobs`), `ChangeOrchestrator`
  (`create_job`, `run_job`, `cancel_job`).

Per-pixel raster operations delegated to the remote engine are embedded at the
value level (a delta pixel is a rational; an image is its list of band names).
Wall-clock timestamps (`datetime.utcnow()`) are embedded as a logical clock:
successive calls return increasing natural numbers.
-/

namespace Verdant

/-! ### engine/change/thresholds.py -/

/-- `ChangeThresholds` — the six boundary fields of the `@dataclass` in
`engine/change/thresholds.py`.  Values are rationals standing for the Python
floats (all configured values are exact decimals). -/
structure ChangeThresholds where
  strong_loss : ℚ
  moderate_loss : ℚ
  stable_min : ℚ
  stable_max : ℚ
  moderate_gain : ℚ
  strong_gain : ℚ
deriving DecidableEq, Repr

/-- The `@dataclass`-generated constructor of `ChangeThresholds`.  The Python
`__init__` performs no validation (the class body declares the six fields and
a `from_config` classmethod only), so construction always succeeds; the
`Except` result type is used so that a construction-time failure, as the spec
claims, would be expressible. -/
def ChangeThresholds.construct (strong_loss moderate_loss stable_min stable_max
    moderate_gain strong_gain : ℚ) : Except String ChangeThresholds :=
  .ok { strong_loss := strong_loss, moderate_loss := moderate_loss,
        stable_min := stable_min, stable_max := stable_max,
        moderate_gain := moderate_gain, strong_gain := strong_gain }

/-- `CHANGE_THRESHOLDS["dndvi"]` from `engine/config.py`. -/
def dndviThresholds : ChangeThresholds :=
  { strong_loss := -(15/100), moderate_loss := -(5/100),
    stable_min := -(5/100), stable_max := 5/100,
    moderate_gain := 5/100, strong_gain := 15/100 }

/-- `CHANGE_THRESHOLDS["dnbr"]` from `engine/config.py`. -/
def dnbrThresholds : ChangeThresholds :=
  { strong_loss := -(20/100), moderate_loss := -(10/100),
    stable_min := -(10/100), stable_max := 10/100,
    moderate_gain := 10/100, strong_gain := 20/100 }

/-- `ThresholdClassifier.classify`, per pixel.  The source starts from the
constant image 3 and applies four `where` overwrites in order:
`delta ≤ strong_loss → 1`, `strong_loss < delta ≤ moderate_loss → 2`,
`moderate_gain ≤ delta < strong_gain → 4`, `delta ≥ strong_gain → 5`.
A later matching `where` overwrites an earlier one, hence the rebinding
cascade. -/
def classify (t : ChangeThresholds) (delta : ℚ) : ℕ :=
  let c : ℕ := 3
  let c := if delta ≤ t.strong_loss then 1 else c
  let c := if t.strong_loss < delta ∧ delta ≤ t.moderate_loss then 2 else c
  let c := if t.moderate_gain ≤ delta ∧ delta < t.strong_gain then 4 else c
  let c := if t.strong_gain ≤ delta then 5 else c
  c

section ClassifyLemmas

variable {t : ChangeThresholds} {δ : ℚ}

lemma classify_eq_one (h2 : t.moderate_loss < t.moderate_gain)
    (h3 : t.moderate_gain < t.strong_gain) (h1' : t.strong_loss < t.moderate_loss)
    (hδ : δ ≤ t.strong_loss) : classify t δ = 1 := by
  simp only [classify]
  rw [if_neg (by intro hc; linarith), if_neg (fun hc => by have := hc.1; linarith),
    if_neg (fun hc => by have := hc.1; linarith), if_pos hδ]

lemma classify_eq_two (h2 : t.moderate_loss < t.moderate_gain)
    (h3 : t.moderate_gain < t.strong_gain)
    (hδ : t.strong_loss < δ) (hδ' : δ ≤ t.moderate_loss) : classify t δ = 2 := by
  simp only [classify]
  rw [if_neg (by intro hc; linarith), if_neg (fun hc => by have := hc.1; linarith),
    if_pos ⟨hδ, hδ'⟩]

lemma classify_eq_three (hδ : t.moderate_loss < δ) (hδ' : δ < t.moderate_gain)
    (h1 : t.strong_loss < t.moderate_loss) (h3 : t.moderate_gain < t.strong_gain) :
    classify t δ = 3 := by
  simp only [classify]
  rw [if_neg (by intro hc; linarith), if_neg (fun hc => by have := hc.1; linarith),
    if_neg (fun hc => by have := hc.2; linarith), if_neg (by intro hc; linarith)]

lemma classify_eq_four (hδ : t.moderate_gain ≤ δ) (hδ' : δ < t.strong_gain)
    (_h1 : t.strong_loss < t.moderate_loss) (_h2 : t.moderate_loss < t.moderate_gain) :
    classify t δ = 4 := by
  simp only [classify]
  rw [if_neg (by intro hc; linarith), if_pos ⟨hδ, hδ'⟩]

lemma classify_eq_five (hδ : t.strong_gain ≤ δ) : classify t δ = 5 := by
  simp only [classify]
  rw [if_pos hδ]

lemma classify_mem_range (t : ChangeThresholds) (δ : ℚ) :
    classify t δ = 1 ∨ classify t δ = 2 ∨ classify t δ = 3 ∨
    classify t δ = 4 ∨ classify t δ = 5 := by
  simp only [classify]
  split_ifs <;> simp

end ClassifyLemmas

/-- An ordering-violating thresholds value (strong_loss = 0 is not below
moderate_loss = -1), used to probe construction-time validation. -/
def badThresholds : ChangeThresholds :=
  { strong_loss := 0, moderate_loss := -1, stable_min := 0,
    stable_max := 0, moderate_gain := 0, strong_gain := 0 }

lemma dndvi_ordered : dndviThresholds.strong_loss < dndviThresholds.moderate_loss ∧
    dndviThresholds.moderate_loss < dndviThresholds.moderate_gain ∧
    dndviThresholds.moderate_gain < dndviThresholds.strong_gain := by
  refine ⟨?_, ?_, ?_⟩ <;> norm_num [dndviThresholds]

end Verdant

/-- C1: `ThresholdClassifier.classify` is total (every delta lands in
{1,…,5}) and boundary-exact: δ ≤ strong_loss ↦ 1, strong_loss < δ ≤
moderate_loss ↦ 2, moderate_gain ≤ δ < strong_gain ↦ 4, δ ≥ strong_gain ↦ 5,
and any δ strictly between moderate_loss and moderate_gain keeps the
initialization default 3; with the configured thresholds
(-0.15, -0.05, 0.05, 0.15), δ = -0.20 ↦ 1, -0.15 ↦ 1, -0.10 ↦ 2, 0.00 ↦ 3,
0.05 ↦ 4, 0.10 ↦ 4, 0.15 ↦ 5, 0.20 ↦ 5. -/
theorem classify_total_and_boundary_exact (t : Verdant.ChangeThresholds) (δ : ℚ)
    (h1 : t.strong_loss < t.moderate_loss)
    (h2 : t.moderate_loss < t.moderate_gain)
    (h3 : t.moderate_gain < t.strong_gain) :
    (∀ t' : Verdant.ChangeThresholds, ∀ δ' : ℚ,
        Verdant.classify t' δ' = 1 ∨ Verdant.classify t' δ' = 2 ∨
        Verdant.classify t' δ' = 3 ∨ Verdant.classify t' δ' = 4 ∨
        Verdant.classify t' δ' = 5) ∧
    (δ ≤ t.strong_loss → Verdant.classify t δ = 1) ∧
    (t.strong_loss < δ → δ ≤ t.moderate_loss → Verdant.classify t δ = 2) ∧
    (t.moderate_loss < δ → δ < t.moderate_gain → Verdant.classify t δ = 3) ∧
    (t.moderate_gain ≤ δ → δ < t.strong_gain → Verdant.classify t δ = 4) ∧
    (t.strong_gain ≤ δ → Verdant.classify t δ = 5) ∧
    (Verdant.classify Verdant.dndviThresholds (-(20/100)) = 1 ∧
     Verdant.classify Verdant.dndviThresholds (-(15/100)) = 1 ∧
     Verdant.classify Verdant.dndviThresholds (-(10/100)) = 2 ∧
     Verdant.classify Verdant.dndviThresholds 0 = 3 ∧
     Verdant.classify Verdant.dndviThresholds (5/100) = 4 ∧
     Verdant.classify Verdant.dndviThresholds (10/100) = 4 ∧
     Verdant.classify Verdant.dndviThresholds (15/100) = 5 ∧
     Verdant.classify Verdant.dndviThresholds (20/100) = 5) := by
  obtain ⟨d1, d2, d3⟩ := Verdant.dndvi_ordered
  refine ⟨Verdant.classify_mem_range,
    fun hδ => Verdant.classify_eq_one h2 h3 h1 hδ,
    fun hδ hδ' => Verdant.classify_eq_two h2 h3 hδ hδ',
    fun hδ hδ' => Verdant.classify_eq_three hδ hδ' h1 h3,
    fun hδ hδ' => Verdant.classify_eq_four hδ hδ' h1 h2,
    fun hδ => Verdant.classify_eq_five hδ,
    Verdant.classify_eq_one d2 d3 d1 (by norm_num [Verdant.dndviThresholds]),
    Verdant.classify_eq_one d2 d3 d1 (by norm_num [Verdant.dndviThresholds]),
    Verdant.classify_eq_two d2 d3 (by norm_num [Verdant.dndviThresholds])
      (by norm_num [Verdant.dndviThresholds]),
    Verdant.classify_eq_three (by norm_num [Verdant.dndviThresholds])
      (by norm_num [Verdant.dndviThresholds]) d1 d3,
    Verdant.classify_eq_four (by norm_num [Verdant.dndviThresholds])
      (by norm_num [Verdant.dndviThresholds]) d1 d2,
    Verdant.classify_eq_four (by norm_num [Verdant.dndviThresholds])
      (by norm_num [Verdant.dndviThresholds]) d1 d2,
    Verdant.classify_eq_five (by norm_num [Verdant.dndviThresholds]),
    Verdant.classify_eq_five (by norm_num [Verdant.dndviThresholds])⟩

/-- Witness for C1, at the configured dndvi thresholds and δ = 0. -/
theorem classify_total_and_boundary_exact_witness :
    Verdant.dndviThresholds.strong_loss < Verdant.dndviThresholds.moderate_loss ∧
    Verdant.dndviThresholds.moderate_loss < Verdant.dndviThresholds.moderate_gain ∧
    Verdant.dndviThresholds.moderate_gain < Verdant.dndviThresholds.strong_gain ∧
    Verdant.classify Verdant.dndviThresholds 0 = 3 := by
  have h1 : Verdant.dndviThresholds.strong_loss < Verdant.dndviThresholds.moderate_loss := by
    norm_num [Verdant.dndviThresholds]
  have h2 : Verdant.dndviThresholds.moderate_loss < Verdant.dndviThresholds.moderate_gain := by
    norm_num [Verdant.dndviThresholds]
  have h3 : Verdant.dndviThresholds.moderate_gain < Verdant.dndviThresholds.strong_gain := by
    norm_num [Verdant.dndviThresholds]
  exact ⟨h1, h2, h3,
    (classify_total_and_boundary_exact Verdant.dndviThresholds 0 h1 h2 h3).2.2.2.2.2.2.2.2.2.1⟩

/-- C2 counterexample: with ordering-violating boundaries
(strong_loss = 0 > moderate_loss = -1), construction succeeds rather than
raising a configuration error, and classification also proceeds without
failure — refuting the claim that malformed thresholds fail at construction
time. -/
theorem changeThresholds_construct_no_validation_counterexample :
    Verdant.ChangeThresholds.construct 0 (-1) 0 0 0 0 = .ok Verdant.badThresholds ∧
    Verdant.classify Verdant.badThresholds 0 = 5 := by
  constructor
  · rfl
  · norm_num [Verdant.classify, Verdant.badThresholds]

/-- C2 amended: constructing a `ChangeThresholds` never validates the
boundary ordering — any six values (ordered or not) construct successfully,
and no error is raised at construction time. -/
theorem changeThresholds_construct_always_succeeds
    (sl ml smin smax mg sg : ℚ) :
    Verdant.ChangeThresholds.construct sl ml smin smax mg sg =
      .ok { strong_loss := sl, moderate_loss := ml, stable_min := smin,
            stable_max := smax, moderate_gain := mg, strong_gain := sg } := rfl

namespace Verdant

/-! ### services/change_orchestrator.py — data model -/

/-- `AnalysisStatus` enum. -/
inductive AnalysisStatus where
  | pending
  | running
  | completed
  | failed
  | cancelled
deriving DecidableEq, Repr

/-- `VegChangeConfig` from `engine/config.py` (field defaults as in the
source; floats as rationals). -/
structure VegChangeConfig where
  site_name : String := "Analysis Site"
  site_description : String := "Vegetation change analysis"
  region : String := "Region"
  country : String := "Country"
  periods : List String := ["1990s", "2000s", "2010s", "present"]
  buffer_distance : ℚ := 500
  export_scale : ℕ := 30
  cloud_threshold : ℚ := 20
  min_images : ℕ := 5
  indices : List String := ["ndvi", "nbr"]
  output_dir : String := "outputs"
  export_to_drive : Bool := true
  drive_folder : String := "VegChangeAnalysis"
  target_epsg : ℕ := 4326
deriving DecidableEq, Repr

/-- The serializable results projection stored on a completed job
(`serializable_results` in `run_job`): an association of field names to
serialized values. -/
abbrev JobResults := List (String × String)

/-- `AnalysisJob` dataclass.  Python stores the config *object* of the caller;
object identity is embedded as an address (`config : ℕ`) into an explicit
heap of `VegChangeConfig` values, so that reference sharing is observable.
Timestamps are logical-clock readings. -/
structure AnalysisJob where
  job_id : String
  status : AnalysisStatus
  config : ℕ
  created_at : ℕ
  started_at : Option ℕ := none
  completed_at : Option ℕ := none
  progress : ℚ := 0
  current_step : String := ""
  results : Option JobResults := none
  error : Option String := none
deriving DecidableEq, Repr

/-- The caller-visible heap of configuration objects (addresses are list
positions). -/
abbrev ConfigHeap := List VegChangeConfig

/-- Caller-side mutation of the configuration object at `addr`
(e.g. `config.site_name = ...` after `create_job` returned). -/
def mutateConfig (heap : ConfigHeap) (addr : ℕ) (cfg : VegChangeConfig) : ConfigHeap :=
  heap.set addr cfg

/-- The configuration a job observes: dereference its stored `config`
reference in the heap. -/
def jobConfig (heap : ConfigHeap) (job : AnalysisJob) : Option VegChangeConfig :=
  heap[job.config]?

/-- The field set passed to one `JobStore.update(job_id, **kwargs)` call:
`none` means the keyword was not passed.  The source never passes `None`
for a timestamp/results/error keyword, so a passed value is always a proper
value. -/
structure JobUpdate where
  status : Option AnalysisStatus := none
  started_at : Option ℕ := none
  completed_at : Option ℕ := none
  progress : Option ℚ := none
  current_step : Option String := none
  results : Option JobResults := none
  error : Option String := none

/-- `setattr(job, key, value)` for each passed keyword (all keywords used by
the source are attributes of `AnalysisJob`, so `hasattr` always passes). -/
def applyUpdate (j : AnalysisJob) (u : JobUpdate) : AnalysisJob :=
  { j with
    status := u.status.getD j.status
    started_at := match u.started_at with
      | some t => some t
      | none => j.started_at
    completed_at := match u.completed_at with
      | some t => some t
      | none => j.completed_at
    progress := u.progress.getD j.progress
    current_step := u.current_step.getD j.current_step
    results := match u.results with
      | some r => some r
      | none => j.results
    error := match u.error with
      | some e => some e
      | none => j.error }

/-- `JobStore`: the `_jobs` dict in insertion order plus `_max_jobs`.
All store methods run under `self._lock`, so each is embedded as one atomic
state transition. -/
structure JobStore where
  jobs : List (String × AnalysisJob)
  max_jobs : ℕ := 100

/-- `JobStore.get`: `self._jobs.get(job_id)`. -/
def JobStore.get (s : JobStore) (job_id : String) : Option AnalysisJob :=
  (s.jobs.find? (fun p => p.1 = job_id)).map Prod.snd

/-- `JobStore.update`: apply the field updates to the stored job if present,
no-op otherwise. -/
def JobStore.update (s : JobStore) (job_id : String) (u : JobUpdate) : JobStore :=
  { s with jobs := s.jobs.map (fun p => if p.1 = job_id then (p.1, applyUpdate p.2 u) else p) }

/-- `job.status in (AnalysisStatus.COMPLETED, AnalysisStatus.FAILED)`. -/
def isTerminal : AnalysisStatus → Bool
  | .completed => true
  | .failed => true
  | _ => false

/-- The sort key of `_cleanup_old_jobs`:
`job.completed_at or job.created_at`. -/
def evictKey (p : String × AnalysisJob) : ℕ :=
  p.2.completed_at.getD p.2.created_at

/-- Ordering used to sort eviction candidates (the stable Python `list.sort`
with the key above; `insertionSort` below is likewise a stable sort). -/
def evictionOrder (a b : String × AnalysisJob) : Prop :=
  evictKey a ≤ evictKey b

instance : DecidableRel evictionOrder := fun a b => Nat.decLe (evictKey a) (evictKey b)

instance : IsTotal (String × AnalysisJob) evictionOrder :=
  ⟨fun a b => Nat.le_total (evictKey a) (evictKey b)⟩

instance : IsTrans (String × AnalysisJob) evictionOrder :=
  ⟨fun _ _ _ => Nat.le_trans⟩

/-- The entries `_cleanup_old_jobs` deletes: nothing when under the limit;
otherwise the first `len(jobs) - max_jobs + 10` terminal entries in
ascending key order. -/
def evictedJobs (jobs : List (String × AnalysisJob)) (max_jobs : ℕ) :
    List (String × AnalysisJob) :=
  if jobs.length < max_jobs then []
  else
    (List.insertionSort evictionOrder
        (jobs.filter (fun p => isTerminal p.2.status))).take
      (jobs.length - max_jobs + 10)

/-- `_cleanup_old_jobs`: delete the evicted ids from the dict. -/
def cleanupOldJobs (jobs : List (String × AnalysisJob)) (max_jobs : ℕ) :
    List (String × AnalysisJob) :=
  jobs.filter (fun p => !((evictedJobs jobs max_jobs).any (fun q => q.1 = p.1)))

/-- `self._jobs[job_id] = job` on a Python dict: replace in place when the
key exists, append otherwise. -/
def insertJob (jobs : List (String × AnalysisJob)) (job_id : String)
    (job : AnalysisJob) : List (String × AnalysisJob) :=
  if jobs.any (fun p => p.1 = job_id) then
    jobs.map (fun p => if p.1 = job_id then (job_id, job) else p)
  else jobs ++ [(job_id, job)]

/-- `JobStore.create`: build the PENDING job (uuid embedded as the `job_id`
argument, `datetime.utcnow()` as `now`, the config reference of the caller as
`configRef`), run the cleanup, insert. -/
def JobStore.create (s : JobStore) (job_id : String) (configRef : ℕ) (now : ℕ) :
    JobStore × AnalysisJob :=
  let job : AnalysisJob :=
    { job_id := job_id, status := .pending, config := configRef, created_at := now }
  ({ s with jobs := insertJob (cleanupOldJobs s.jobs s.max_jobs) job_id job }, job)

/-- `ChangeOrchestrator.cancel_job`. -/
def cancelJob (s : JobStore) (job_id : String) (now : ℕ) : JobStore × Bool :=
  match s.get job_id with
  | some job =>
      if job.status = .pending then
        (s.update job_id { status := some .cancelled, completed_at := some now }, true)
      else (s, false)
  | none => (s, false)

/-- The `(progress, step)` arguments of the `update_progress` calls in
`ChangeOrchestrator.analyze`, in program order. -/
def analyzeUpdates : List (ℚ × String) :=
  [(0, "Starting analysis"),
   (5/100, "Creating temporal composites"),
   (40/100, "Composites created"),
   (45/100, "Calculating spectral indices"),
   (60/100, "Indices calculated"),
   (65/100, "Analyzing vegetation change"),
   (85/100, "Change analysis complete"),
   (90/100, "Generating statistics"),
   (1, "Analysis complete")]

/-- The store update performed by the progress callback wired in `run_job`. -/
def progressUpdate (u : ℚ × String) : JobUpdate :=
  { progress := some u.1, current_step := some u.2 }

/-- `ChangeOrchestrator.run_job`.  `outcome` is the result of the `analyze`
call (`.ok results` when it returns the serializable statistics projection,
`.error msg` when some stage raises with message `msg`); on the failure path
`analyze` had emitted the first `k` of its progress updates before raising.
`t` is the logical-clock reading of the `datetime.utcnow()` call that stamps
`started_at`; the later `utcnow()` stamping `completed_at` reads `t + 1`.
The second component is the exception re-raised to the caller, if any. -/
def runJob (s : JobStore) (job_id : String) (outcome : Except String JobResults)
    (k : ℕ) (t : ℕ) : JobStore × Option String :=
  match s.get job_id with
  | none => (s, none)
  | some _ =>
    let s1 := s.update job_id { status := some .running, started_at := some t }
    match outcome with
    | .ok results =>
        let s2 := analyzeUpdates.foldl (fun st u => st.update job_id (progressUpdate u)) s1
        (s2.update job_id
          { status := some .completed, completed_at := some (t + 1),
            progress := some 1, current_step := some "Complete",
            results := some results }, none)
    | .error msg =>
        let s2 := (analyzeUpdates.take k).foldl
          (fun st u => st.update job_id (progressUpdate u)) s1
        (s2.update job_id
          { status := some .failed, completed_at := some (t + 1),
            error := some msg }, some msg)

/-- The sequence of progress values a successful `run_job` writes to the
store: one write per `update_progress` call in `analyze` (through the wired
callback), then the `progress=1.0` of the final completion update. -/
def successProgressWrites : List ℚ :=
  analyzeUpdates.map Prod.fst ++ [1]

end Verdant

namespace Verdant

/-! ### Store lemmas -/

lemma find_map_update (l : List (String × AnalysisJob)) (i : String) (u : JobUpdate) :
    (l.map (fun p => if p.1 = i then (p.1, applyUpdate p.2 u) else p)).find?
        (fun p => p.1 = i) =
      (l.find? (fun p => p.1 = i)).map (fun p => (p.1, applyUpdate p.2 u)) := by
  induction l with
  | nil => rfl
  | cons p l ih =>
    by_cases h : p.1 = i
    · simp [List.find?, h]
    · simp [List.find?, h, ih]

lemma get_update_self (s : JobStore) (i : String) (u : JobUpdate) :
    (s.update i u).get i = (s.get i).map (fun j => applyUpdate j u) := by
  simp only [JobStore.get, JobStore.update, find_map_update, Option.map_map]
  cases l : (s.jobs.find? (fun p => p.1 = i)) <;> rfl

/-- The cumulative effect on one job of a run of progress-callback updates. -/
def progressFold (l : List (ℚ × String)) (j : AnalysisJob) : AnalysisJob :=
  l.foldl (fun j u => applyUpdate j (progressUpdate u)) j

lemma get_foldl_progress (l : List (ℚ × String)) (s : JobStore) (i : String) :
    (l.foldl (fun st u => st.update i (progressUpdate u)) s).get i =
      (s.get i).map (progressFold l) := by
  induction l generalizing s with
  | nil => cases h : s.get i <;> simp [progressFold, h]
  | cons u l ih =>
    rw [List.foldl_cons, ih, get_update_self, Option.map_map]
    rfl

lemma progressFold_fields (l : List (ℚ × String)) (j : AnalysisJob) :
    (progressFold l j).status = j.status ∧
    (progressFold l j).started_at = j.started_at ∧
    (progressFold l j).completed_at = j.completed_at ∧
    (progressFold l j).results = j.results ∧
    (progressFold l j).error = j.error := by
  induction l generalizing j with
  | nil => exact ⟨rfl, rfl, rfl, rfl, rfl⟩
  | cons u l ih =>
    have h := ih (applyUpdate j (progressUpdate u))
    simpa [progressFold, applyUpdate, progressUpdate, List.foldl_cons] using h

end Verdant

/-- C3: job lifecycle. `create_job` yields a PENDING job with created_at set
and started_at/completed_at unset; after a `run_job` in which `analyze`
succeeds, the job is COMPLETED with progress 1.0 and started_at ≤
completed_at, nothing re-raised; after a `run_job` in which `analyze` raises
`msg`, the job is FAILED with the non-empty error string `msg`, results stay
unset, and the exception is re-raised to the caller. -/
theorem job_lifecycle (s : Verdant.JobStore) (id : String) (t k : ℕ)
    (res : Verdant.JobResults) (msg : String) (j : Verdant.AnalysisJob)
    (hget : s.get id = some j) (hres : j.results = none) (hmsg : msg ≠ "") :
    (∀ (s0 : Verdant.JobStore) (id0 : String) (cfg0 now0 : ℕ),
        (s0.create id0 cfg0 now0).2.status = .pending ∧
        (s0.create id0 cfg0 now0).2.created_at = now0 ∧
        (s0.create id0 cfg0 now0).2.started_at = none ∧
        (s0.create id0 cfg0 now0).2.completed_at = none) ∧
    (∃ j', (Verdant.runJob s id (.ok res) k t).1.get id = some j' ∧
        j'.status = .completed ∧ j'.progress = 1 ∧
        j'.started_at = some t ∧ j'.completed_at = some (t + 1) ∧ t ≤ t + 1 ∧
        (Verdant.runJob s id (.ok res) k t).2 = none) ∧
    (∃ j', (Verdant.runJob s id (.error msg) k t).1.get id = some j' ∧
        j'.status = .failed ∧ j'.error = some msg ∧ msg ≠ "" ∧
        j'.results = none ∧
        (Verdant.runJob s id (.error msg) k t).2 = some msg) := by
  have h1 : (s.update id { status := some .running, started_at := some t }).get id =
      some (Verdant.applyUpdate j { status := some .running, started_at := some t }) := by
    rw [Verdant.get_update_self, hget]
    rfl
  refine ⟨fun s0 id0 cfg0 now0 => ⟨rfl, rfl, rfl, rfl⟩, ?_, ?_⟩
  · have hgetFinal :
        (Verdant.runJob s id (.ok res) k t).1.get id =
          some (Verdant.applyUpdate
            (Verdant.progressFold Verdant.analyzeUpdates
              (Verdant.applyUpdate j { status := some .running, started_at := some t }))
            { status := some .completed, completed_at := some (t + 1),
              progress := some 1, current_step := some "Complete",
              results := some res }) := by
      simp only [Verdant.runJob, hget]
      rw [Verdant.get_update_self, Verdant.get_foldl_progress, h1]
      rfl
    refine ⟨_, hgetFinal, ?_, ?_, ?_, ?_, Nat.le_succ t, ?_⟩
    · simp [Verdant.applyUpdate]
    · simp [Verdant.applyUpdate]
    · simp only [Verdant.applyUpdate]
      rw [(Verdant.progressFold_fields _ _).2.1]
    · simp [Verdant.applyUpdate]
    · simp only [Verdant.runJob, hget]
  · have hgetFinal :
        (Verdant.runJob s id (.error msg) k t).1.get id =
          some (Verdant.applyUpdate
            (Verdant.progressFold (Verdant.analyzeUpdates.take k)
              (Verdant.applyUpdate j { status := some .running, started_at := some t }))
            { status := some .failed, completed_at := some (t + 1),
              error := some msg }) := by
      simp only [Verdant.runJob, hget]
      rw [Verdant.get_update_self, Verdant.get_foldl_progress, h1]
      rfl
    refine ⟨_, hgetFinal, ?_, ?_, hmsg, ?_, ?_⟩
    · simp [Verdant.applyUpdate]
    · simp [Verdant.applyUpdate]
    · simp only [Verdant.applyUpdate, hres]
      rw [(Verdant.progressFold_fields _ _).2.2.2.1]
    · simp only [Verdant.runJob, hget]

namespace Verdant

/-- A store holding exactly one freshly created job (configuration reference
0, creation time 0), used as a concrete instance. -/
def storeW : JobStore := (JobStore.create ⟨[], 100⟩ "j1" 0 0).1

/-- The freshly created job of `storeW`. -/
def jobW : AnalysisJob := (JobStore.create ⟨[], 100⟩ "j1" 0 0).2

end Verdant

/-- Witness for C3: a fresh single-job store, a successful run at logical
time 3 with a concrete statistics projection, and the failure message
"boom". -/
theorem job_lifecycle_witness :
    Verdant.storeW.get "j1" = some Verdant.jobW ∧
    Verdant.jobW.results = none ∧ ("boom" : String) ≠ "" ∧
    (∃ j', (Verdant.runJob Verdant.storeW "j1"
          (.ok [("statistics", "{}")]) 0 3).1.get "j1" = some j' ∧
        j'.status = .completed ∧ j'.progress = 1 ∧ j'.started_at = some 3 ∧
        j'.completed_at = some (3 + 1) ∧ 3 ≤ 3 + 1 ∧
        (Verdant.runJob Verdant.storeW "j1"
          (.ok [("statistics", "{}")]) 0 3).2 = none) ∧
    (∃ j', (Verdant.runJob Verdant.storeW "j1"
          (.error "boom") 0 3).1.get "j1" = some j' ∧
        j'.status = .failed ∧ j'.error = some "boom" ∧ ("boom" : String) ≠ "" ∧
        j'.results = none ∧
        (Verdant.runJob Verdant.storeW "j1" (.error "boom") 0 3).2 = some "boom") := by
  have hget : Verdant.storeW.get "j1" = some Verdant.jobW := by
    simp [Verdant.storeW, Verdant.jobW, Verdant.JobStore.create, Verdant.insertJob,
      Verdant.cleanupOldJobs, Verdant.evictedJobs, Verdant.JobStore.get, List.find?]
  have hres : Verdant.jobW.results = none := rfl
  have hmsg : ("boom" : String) ≠ "" := by simp
  have h := job_lifecycle Verdant.storeW "j1" 3 0 [("statistics", "{}")] "boom"
    Verdant.jobW hget hres hmsg
  exact ⟨hget, hres, hmsg, h.2.1, h.2.2⟩

/-- C4: `cancel_job` on a PENDING job returns true and sets status
CANCELLED; on a job in any other status, and on an unknown job id, it
returns false and leaves the store entirely unchanged. -/
theorem cancel_job_semantics (s : Verdant.JobStore) (id : String) (now : ℕ) :
    (∀ j, s.get id = some j → j.status = .pending →
        (Verdant.cancelJob s id now).2 = true ∧
        ∃ j', (Verdant.cancelJob s id now).1.get id = some j' ∧
          j'.status = .cancelled) ∧
    (∀ j, s.get id = some j → j.status ≠ .pending →
        Verdant.cancelJob s id now = (s, false)) ∧
    (s.get id = none → Verdant.cancelJob s id now = (s, false)) := by
  refine ⟨?_, ?_, ?_⟩
  · intro j hget hstat
    have hc : Verdant.cancelJob s id now =
        (s.update id { status := some .cancelled, completed_at := some now }, true) := by
      simp [Verdant.cancelJob, hget, hstat]
    refine ⟨by rw [hc], ?_⟩
    rw [hc]
    refine ⟨_, by rw [Verdant.get_update_self, hget]; rfl, ?_⟩
    simp [Verdant.applyUpdate]
  · intro j hget hstat
    simp [Verdant.cancelJob, hget, hstat]
  · intro hget
    simp [Verdant.cancelJob, hget]

/-- Witness for C4: cancelling the pending job of `storeW`. -/
theorem cancel_job_semantics_witness :
    Verdant.storeW.get "j1" = some Verdant.jobW ∧
    Verdant.jobW.status = .pending ∧
    (Verdant.cancelJob Verdant.storeW "j1" 9).2 = true ∧
    (∃ j', (Verdant.cancelJob Verdant.storeW "j1" 9).1.get "j1" = some j' ∧
      j'.status = .cancelled) := by
  have hget : Verdant.storeW.get "j1" = some Verdant.jobW := by
    simp [Verdant.storeW, Verdant.jobW, Verdant.JobStore.create, Verdant.insertJob,
      Verdant.cleanupOldJobs, Verdant.evictedJobs, Verdant.JobStore.get, List.find?]
  have hstat : Verdant.jobW.status = .pending := rfl
  have h := (cancel_job_semantics Verdant.storeW "j1" 9).1 Verdant.jobW hget hstat
  exact ⟨hget, hstat, h.1, h.2⟩

/-- C6: for a single successful `run_job` execution, the sequence of
progress values written to the store (the writes of the wired callback followed
by the completion update) is monotonically non-decreasing and its last
value is 1.0. -/
theorem run_job_progress_monotone :
    List.Chain' (· ≤ ·) Verdant.successProgressWrites ∧
    Verdant.successProgressWrites.getLast? = some 1 := by
  constructor
  · norm_num [Verdant.successProgressWrites, Verdant.analyzeUpdates,
      List.chain'_cons, List.chain'_singleton]
  · rfl

namespace Verdant

/-- A caller-built configuration (all dataclass defaults). -/
def cfgOriginal : VegChangeConfig := {}

/-- The same configuration after the caller mutates `site_name` in place. -/
def cfgMutated : VegChangeConfig := { site_name := "Mutated" }

end Verdant

/-- C9 counterexample: `JobStore.create` stores the configuration
*reference* (no copy is taken).  With a one-object heap, the job created
against address 0 observes the original configuration before the caller
mutates it and the mutated configuration afterwards — refuting the claim
that the job configuration is an immutable snapshot. -/
theorem config_snapshot_counterexample :
    Verdant.jobConfig [Verdant.cfgOriginal] Verdant.jobW = some Verdant.cfgOriginal ∧
    Verdant.jobConfig (Verdant.mutateConfig [Verdant.cfgOriginal] 0 Verdant.cfgMutated)
        Verdant.jobW = some Verdant.cfgMutated ∧
    some Verdant.cfgMutated ≠ some Verdant.cfgOriginal := by
  refine ⟨rfl, rfl, ?_⟩
  intro h
  have h' := congrArg (fun o => (Option.getD o Verdant.cfgOriginal).site_name) h
  exact absurd h' (by decide)

/-- C9 amended: the configuration attached to a job is a shared reference to
the configuration object of the caller, not a snapshot: after create_job, a
caller-side mutation of that object is visible as the configuration stored
on (and later used by) the job. -/
theorem config_reference_shared (heap : Verdant.ConfigHeap) (addr : ℕ)
    (newCfg : Verdant.VegChangeConfig) (s : Verdant.JobStore) (id : String)
    (now : ℕ) (haddr : addr < heap.length) :
    Verdant.jobConfig (Verdant.mutateConfig heap addr newCfg)
      ((s.create id addr now).2) = some newCfg := by
  show (heap.set addr newCfg)[addr]? = some newCfg
  exact List.getElem?_set_eq_of_lt newCfg haddr

/-- Witness for the amended C9 theorem: one-object heap, address 0. -/
theorem config_reference_shared_witness :
    0 < ([Verdant.cfgOriginal] : Verdant.ConfigHeap).length ∧
    Verdant.jobConfig (Verdant.mutateConfig [Verdant.cfgOriginal] 0 Verdant.cfgMutated)
      ((Verdant.JobStore.create ⟨[], 100⟩ "j1" 0 0).2) = some Verdant.cfgMutated := by
  refine ⟨by decide, config_reference_shared [Verdant.cfgOriginal] 0
    Verdant.cfgMutated ⟨[], 100⟩ "j1" 0 (by decide)⟩

namespace Verdant

lemma find_map_replace (l : List (String × AnalysisJob)) (i : String)
    (j : AnalysisJob) (h : l.any (fun p => p.1 = i) = true) :
    (l.map (fun p => if p.1 = i then (i, j) else p)).find? (fun p => p.1 = i) =
      some (i, j) := by
  induction l with
  | nil => simp at h
  | cons p l ih =>
    by_cases hp : p.1 = i
    · simp [List.find?, hp]
    · have h' : l.any (fun p => p.1 = i) = true := by
        simpa [hp] using h
      simp [List.find?, hp, ih h']

lemma find_append_single (l : List (String × AnalysisJob)) (i : String)
    (j : AnalysisJob) (h : l.any (fun p => p.1 = i) = false) :
    (l ++ [(i, j)]).find? (fun p => p.1 = i) = some (i, j) := by
  induction l with
  | nil => simp [List.find?]
  | cons p l ih =>
    have hp : ¬ p.1 = i := by
      intro hc
      simp [hc] at h
    have h' : l.any (fun p => p.1 = i) = false := by
      simpa [hp] using h
    simp [List.find?, hp, ih h']

lemma get_insertJob (l : List (String × AnalysisJob)) (i : String) (j : AnalysisJob) :
    ((insertJob l i j).find? (fun p => p.1 = i)).map Prod.snd = some j := by
  unfold insertJob
  by_cases h : l.any (fun p => p.1 = i) = true
  · rw [if_pos h, find_map_replace l i j h]
    rfl
  · rw [if_neg h, find_append_single l i j (Bool.eq_false_iff.mpr h)]
    rfl

lemma cleanup_no_terminal (jobs : List (String × AnalysisJob)) (m : ℕ)
    (h : ∀ p ∈ jobs, isTerminal p.2.status = false) :
    cleanupOldJobs jobs m = jobs := by
  have hf : jobs.filter (fun p => isTerminal p.2.status) = [] := by
    rw [List.filter_eq_nil_iff]
    intro p hp
    simp [h p hp]
  have he : evictedJobs jobs m = [] := by
    unfold evictedJobs
    rw [hf]
    split <;> simp [List.insertionSort]
  unfold cleanupOldJobs
  rw [he]
  simp

end Verdant

/-- C10: `JobStore.create` never refuses or fails for capacity reasons: for
every store, the created job is PENDING and retrievable after creation; and
since eviction only removes COMPLETED/FAILED jobs, when every stored job is
PENDING or RUNNING and the store is exactly at `max_jobs`, the store size
after `create` is `max_jobs + 1` — strictly above the capacity limit, which
is therefore a soft bound. -/
theorem create_soft_capacity (s : Verdant.JobStore) (id : String) (cfgRef now : ℕ)
    (hfresh : s.jobs.any (fun p => p.1 = id) = false)
    (hactive : ∀ p ∈ s.jobs, p.2.status = .pending ∨ p.2.status = .running)
    (hfull : s.jobs.length = s.max_jobs) :
    ((s.create id cfgRef now).2.status = .pending ∧
     ∀ (s0 : Verdant.JobStore) (id0 : String) (c0 n0 : ℕ),
       (s0.create id0 c0 n0).1.get id0 = some (s0.create id0 c0 n0).2) ∧
    (s.create id cfgRef now).1.jobs.length = s.max_jobs + 1 ∧
    s.max_jobs < (s.create id cfgRef now).1.jobs.length := by
  have hterm : ∀ p ∈ s.jobs, Verdant.isTerminal p.2.status = false := by
    intro p hp
    rcases hactive p hp with h | h <;> simp [Verdant.isTerminal, h]
  have hclean : Verdant.cleanupOldJobs s.jobs s.max_jobs = s.jobs :=
    Verdant.cleanup_no_terminal s.jobs s.max_jobs hterm
  have hlen : (s.create id cfgRef now).1.jobs.length = s.max_jobs + 1 := by
    show (Verdant.insertJob (Verdant.cleanupOldJobs s.jobs s.max_jobs) id _).length
      = s.max_jobs + 1
    rw [hclean]
    unfold Verdant.insertJob
    rw [if_neg (by simp [hfresh])]
    simp [hfull]
  refine ⟨⟨rfl, fun s0 id0 c0 n0 => Verdant.get_insertJob _ id0 _⟩, hlen, ?_⟩
  rw [hlen]
  exact Nat.lt_succ_self _

namespace Verdant

/-- A pending job used in concrete store instances. -/
def jobA : AnalysisJob :=
  { job_id := "a", status := .pending, config := 0, created_at := 0 }

/-- A store of capacity 1 holding the single pending job `jobA`. -/
def storeA : JobStore := { jobs := [("a", jobA)], max_jobs := 1 }

end Verdant

/-- Witness for C10: a store with capacity 1 holding one pending job,
creating a second job. -/
theorem create_soft_capacity_witness :
    Verdant.storeA.jobs.any (fun p => p.1 = "b") = false ∧
    (∀ p ∈ Verdant.storeA.jobs,
      p.2.status = .pending ∨ p.2.status = .running) ∧
    (Verdant.storeA.create "b" 0 5).1.jobs.length = Verdant.storeA.max_jobs + 1 := by
  have hfresh : Verdant.storeA.jobs.any (fun p => p.1 = "b") = false := by
    simp [Verdant.storeA]
  have hactive : ∀ p ∈ Verdant.storeA.jobs,
      p.2.status = .pending ∨ p.2.status = .running := by
    intro p hp
    simp only [Verdant.storeA, List.mem_singleton] at hp
    subst hp
    exact Or.inl rfl
  exact ⟨hfresh, hactive,
    (create_soft_capacity Verdant.storeA "b" 0 5 hfresh hactive rfl).2.1⟩

namespace Verdant

lemma mem_evicted (jobs : List (String × AnalysisJob)) (m : ℕ) {p : String × AnalysisJob}
    (hp : p ∈ evictedJobs jobs m) : isTerminal p.2.status = true ∧ p ∈ jobs := by
  unfold evictedJobs at hp
  split at hp
  · simp at hp
  · have h1 : p ∈ List.insertionSort evictionOrder
        (jobs.filter (fun q => isTerminal q.2.status)) :=
      List.take_subset _ _ hp
    have h2 := (List.mem_insertionSort Verdant.evictionOrder).mp h1
    exact ⟨(List.mem_filter.mp h2).2, (List.mem_filter.mp h2).1⟩

end Verdant

/-- C5: eviction safety and order.  Eviction (the cleanup run at creation
time) removes only COMPLETED/FAILED jobs, so a PENDING or RUNNING job always
survives, however far the store exceeds capacity; the evicted entries are in
ascending order of completion time, and every evicted entry has completion
time at most that of any surviving terminal entry (oldest terminal
first).  `hnodup` records that store keys are dict keys (unique). -/
theorem jobStore_eviction_safety_and_order
    (jobs : List (String × Verdant.AnalysisJob)) (max_jobs : ℕ)
    (hnodup : (jobs.map Prod.fst).Nodup) :
    (∀ p ∈ Verdant.evictedJobs jobs max_jobs,
        p.2.status = .completed ∨ p.2.status = .failed) ∧
    (∀ p ∈ jobs, (p.2.status = .pending ∨ p.2.status = .running) →
        p ∈ Verdant.cleanupOldJobs jobs max_jobs) ∧
    (Verdant.evictedJobs jobs max_jobs).Pairwise
      (fun a b => ∀ ta tb, a.2.completed_at = some ta →
        b.2.completed_at = some tb → ta ≤ tb) ∧
    (∀ e ∈ Verdant.evictedJobs jobs max_jobs,
     ∀ q ∈ Verdant.cleanupOldJobs jobs max_jobs,
        Verdant.isTerminal q.2.status = true →
        ∀ te tq, e.2.completed_at = some te → q.2.completed_at = some tq →
          te ≤ tq) := by
  have hA : ∀ p ∈ Verdant.evictedJobs jobs max_jobs,
      p.2.status = .completed ∨ p.2.status = .failed := by
    intro p hp
    have := (Verdant.mem_evicted jobs max_jobs hp).1
    cases h : p.2.status <;> simp [Verdant.isTerminal, h] at this ⊢
  have hB : ∀ p ∈ jobs, (p.2.status = .pending ∨ p.2.status = .running) →
      p ∈ Verdant.cleanupOldJobs jobs max_jobs := by
    intro p hp hstat
    refine List.mem_filter.mpr ⟨hp, ?_⟩
    rw [Bool.not_eq_true']
    rw [List.any_eq_false]
    intro e he
    simp only [decide_eq_true_eq]
    intro heq
    obtain ⟨hterm, heJobs⟩ := Verdant.mem_evicted jobs max_jobs he
    have : e = p := List.inj_on_of_nodup_map hnodup heJobs hp heq
    subst this
    rcases hstat with h | h <;> simp [Verdant.isTerminal, h] at hterm
  by_cases hcap : jobs.length < max_jobs
  · have he : Verdant.evictedJobs jobs max_jobs = [] := by
      simp [Verdant.evictedJobs, hcap]
    refine ⟨hA, hB, by simp [he], by simp [he]⟩
  · have he : Verdant.evictedJobs jobs max_jobs =
        (List.insertionSort Verdant.evictionOrder
          (jobs.filter (fun q => Verdant.isTerminal q.2.status))).take
          (jobs.length - max_jobs + 10) := by
      simp [Verdant.evictedJobs, hcap]
    have hsorted : (List.insertionSort Verdant.evictionOrder
        (jobs.filter (fun q => Verdant.isTerminal q.2.status))).Pairwise
          Verdant.evictionOrder :=
      List.sorted_insertionSort Verdant.evictionOrder _
    refine ⟨hA, hB, ?_, ?_⟩
    · have htake : (Verdant.evictedJobs jobs max_jobs).Pairwise Verdant.evictionOrder := by
        rw [he]
        exact hsorted.sublist (List.take_sublist _ _)
      refine htake.imp ?_
      intro a b hr ta tb hta htb
      simpa [Verdant.evictionOrder, Verdant.evictKey, hta, htb] using hr
    · intro e hev q hq hqterm te tq hte htq
      have hqJobs : q ∈ jobs := (List.mem_filter.mp hq).1
      have hqNotEv : ((Verdant.evictedJobs jobs max_jobs).any
          (fun x => x.1 = q.1)) = false := by
        have := (List.mem_filter.mp hq).2
        rwa [Bool.not_eq_true'] at this
      have hqCand : q ∈ List.insertionSort Verdant.evictionOrder
          (jobs.filter (fun x => Verdant.isTerminal x.2.status)) :=
        (List.mem_insertionSort Verdant.evictionOrder).mpr (List.mem_filter.mpr ⟨hqJobs, hqterm⟩)
      have hsplit := List.take_append_drop (jobs.length - max_jobs + 10)
        (List.insertionSort Verdant.evictionOrder
          (jobs.filter (fun x => Verdant.isTerminal x.2.status)))
      have hqTakeDrop : q ∈ Verdant.evictedJobs jobs max_jobs ∨
          q ∈ (List.insertionSort Verdant.evictionOrder
            (jobs.filter (fun x => Verdant.isTerminal x.2.status))).drop
            (jobs.length - max_jobs + 10) := by
        rw [he]
        exact List.mem_append.mp (by rw [hsplit]; exact hqCand)
      have hqDrop : q ∈ (List.insertionSort Verdant.evictionOrder
          (jobs.filter (fun x => Verdant.isTerminal x.2.status))).drop
          (jobs.length - max_jobs + 10) := by
        rcases hqTakeDrop with h | h
        · exfalso
          have : ((Verdant.evictedJobs jobs max_jobs).any
              (fun x => x.1 = q.1)) = true := by
            rw [List.any_eq_true]
            exact ⟨q, h, by simp⟩
          rw [hqNotEv] at this
          exact Bool.false_ne_true this
        · exact h
      have hpair : ∀ a ∈ (List.insertionSort Verdant.evictionOrder
            (jobs.filter (fun x => Verdant.isTerminal x.2.status))).take
            (jobs.length - max_jobs + 10),
          ∀ b ∈ (List.insertionSort Verdant.evictionOrder
            (jobs.filter (fun x => Verdant.isTerminal x.2.status))).drop
            (jobs.length - max_jobs + 10),
          Verdant.evictionOrder a b := by
        have h := hsorted
        rw [← hsplit] at h
        exact (List.pairwise_append.mp h).2.2
      have hr : Verdant.evictionOrder e q := by
        refine hpair e ?_ q hqDrop
        rw [← he]
        exact hev
      simpa [Verdant.evictionOrder, Verdant.evictKey, hte, htq] using hr

namespace Verdant

/-- A completed job that finished at logical time 5. -/
def jobDone5 : AnalysisJob :=
  { job_id := "a", status := .completed, config := 0, created_at := 1,
    completed_at := some 5 }

/-- A failed job that finished at logical time 3. -/
def jobFail3 : AnalysisJob :=
  { job_id := "c", status := .failed, config := 0, created_at := 2,
    completed_at := some 3 }

/-- A store content over capacity 2 mixing terminal and pending jobs. -/
def jobsMix : List (String × AnalysisJob) :=
  [("a", jobDone5), ("b", jobA), ("c", jobFail3)]

end Verdant

/-- Witness for C5: with the mixed store content over capacity 2, the
pending job survives the cleanup. -/
theorem jobStore_eviction_safety_and_order_witness :
    (Verdant.jobsMix.map Prod.fst).Nodup ∧
    ("b", Verdant.jobA) ∈ Verdant.cleanupOldJobs Verdant.jobsMix 2 := by
  have hnodup : (Verdant.jobsMix.map Prod.fst).Nodup := by
    simp [Verdant.jobsMix]
  refine ⟨hnodup, (jobStore_eviction_safety_and_order Verdant.jobsMix 2 hnodup).2.1
    ("b", Verdant.jobA) ?_ (Or.inl rfl)⟩
  exact List.mem_cons_of_mem _ (List.mem_cons_self _ _)

namespace Verdant

/-! ### engine/change/detection.py -/

/-- The band-level view of an `ee.Image`: its band names and the property
map attached with `set` (property values are serialized as string lists).
Pixel-level content lives remotely and is not part of the local state the
detection code manipulates. -/
structure EEImage where
  bands : List String
  props : List (String × List String) := []
deriving DecidableEq, Repr

/-- `image.select(band_name)` — single-band selection, as used by
`analyze_period_change` (selection is lazy in the remote engine; a missing
band surfaces only at compute time, outside this code). -/
def select (img : EEImage) (band : String) : EEImage :=
  { img with bands := [band] }

/-- `a.subtract(b)` — band-wise arithmetic; the result carries the band
names of the first operand. -/
def subtract (a _b : EEImage) : EEImage :=
  { bands := a.bands }

/-- `image.rename(name)` for the single-band usages in the sources. -/
def rename (img : EEImage) (name : String) : EEImage :=
  { img with bands := [name] }

/-- `a.addBands(b)` — band concatenation. -/
def addBands (a b : EEImage) : EEImage :=
  { bands := a.bands ++ b.bands }

/-- `image.set({...})` — attach metadata properties. -/
def setProps (img : EEImage) (ps : List (String × List String)) : EEImage :=
  { img with props := ps }

/-- `ThresholdClassifier.classify` at the band level: the result is the
single band later renamed `change_class` (per-pixel semantics are
`classify` above). -/
def classifyImage (delta : EEImage) : EEImage :=
  rename delta "change_class"

/-- `analyze_period_change`: delta = after − before on the named index band,
renamed `d<index_name>`, classified, and both bands combined. -/
def analyze_period_change (before after : EEImage) (index_name : String) : EEImage :=
  let before_index := select before index_name
  let after_index := select after index_name
  let delta := rename (subtract after_index before_index) ("d" ++ index_name)
  let classified := classifyImage delta
  addBands delta classified

/-- `composites[reference_period]` lookup (`in` test plus subscript). -/
def lookupComposite (composites : List (String × EEImage)) (period : String) :
    Option EEImage :=
  (composites.find? (fun p => p.1 = period)).map Prod.snd

/-- `combined = period_changes[0]` followed by `addBands` over the rest;
on an empty list the subscript raises an IndexError. -/
def combineChanges : List EEImage → Except String EEImage
  | [] => .error "list index out of range"
  | c :: rest => .ok (rest.foldl addBands c)

/-- The loop body of `create_change_analysis` over the composites dict
(insertion order), skipping the reference period, raising on the first
failing comparison. -/
def changeEntries (baseline : EEImage) (indices : List String)
    (reference_period : String) :
    List (String × EEImage) → Except String (List (String × EEImage))
  | [] => .ok []
  | (period_name, composite) :: rest =>
    if period_name = reference_period then
      changeEntries baseline indices reference_period rest
    else
      match combineChanges
          (indices.map (fun i => analyze_period_change baseline composite i)) with
      | .error e => .error e
      | .ok combined =>
        match changeEntries baseline indices reference_period rest with
        | .error e => .error e
        | .ok restEntries =>
          .ok ((reference_period ++ "_to_" ++ period_name,
                setProps combined
                  [("reference_period", [reference_period]),
                   ("comparison_period", [period_name]),
                   ("indices", indices)]) :: restEntries)

/-- `create_change_analysis`: default the indices, fail when the reference
period is absent, then build one entry per non-reference period. -/
def create_change_analysis (composites : List (String × EEImage))
    (indices : Option (List String)) (reference_period : String) :
    Except String (List (String × EEImage)) :=
  let indices := indices.getD ["ndvi", "nbr"]
  match lookupComposite composites reference_period with
  | none => .error ("Reference period " ++ reference_period ++ " not in composites")
  | some baseline => changeEntries baseline indices reference_period composites

/-- The combined change image for one comparison period and nonempty index
list `i :: is`. -/
def combinedChange (baseline composite : EEImage) (i : String) (is : List String) :
    EEImage :=
  (is.map (fun ix => analyze_period_change baseline composite ix)).foldl addBands
    (analyze_period_change baseline composite i)

lemma changeEntries_cons_indices (baseline : EEImage) (i : String) (is : List String)
    (ref : String) (l : List (String × EEImage)) :
    changeEntries baseline (i :: is) ref l =
      .ok ((l.filter (fun p => ¬ p.1 = ref)).map
        (fun p => (ref ++ "_to_" ++ p.1,
          setProps (combinedChange baseline p.2 i is)
            [("reference_period", [ref]),
             ("comparison_period", [p.1]),
             ("indices", i :: is)]))) := by
  induction l with
  | nil => rfl
  | cons p l ih =>
    by_cases hp : p.1 = ref
    · simp [changeEntries, hp, ih]
    · simp [changeEntries, hp, ih, combineChanges, combinedChange]

lemma changeEntries_nil_indices (baseline : EEImage) (ref : String)
    (l : List (String × EEImage)) :
    ((∃ p ∈ l, ¬ p.1 = ref) →
      changeEntries baseline [] ref l = .error "list index out of range") ∧
    ((∀ p ∈ l, p.1 = ref) → changeEntries baseline [] ref l = .ok []) := by
  induction l with
  | nil => exact ⟨by simp, fun _ => rfl⟩
  | cons p l ih =>
    constructor
    · rintro ⟨q, hq, hqref⟩
      by_cases hp : p.1 = ref
      · have hql : q ∈ l := by
          rcases List.mem_cons.mp hq with h | h
          · subst h
            exact absurd hp hqref
          · exact h
        simp only [changeEntries, if_pos hp]
        exact ih.1 ⟨q, hql, hqref⟩
      · simp [changeEntries, hp, combineChanges]
    · intro hall
      have hp : p.1 = ref := hall p (List.mem_cons_self _ _)
      simp only [changeEntries, if_pos hp]
      exact ih.2 (fun q hq => hall q (List.mem_cons_of_mem _ hq))

lemma keys_of_entry_map (l : List (String × EEImage)) (ref : String)
    (g : String × EEImage → EEImage) :
    ((l.filter (fun p => ¬ p.1 = ref)).map
        (fun p => (ref ++ "_to_" ++ p.1, g p))).map Prod.fst =
      ((l.map Prod.fst).filter (fun p => ¬ p = ref)).map
        (fun p => ref ++ "_to_" ++ p) := by
  induction l with
  | nil => rfl
  | cons p l ih =>
    simp only [decide_not] at ih
    by_cases hp : p.1 = ref
    · simp [hp, ih]
    · simp [hp, ih]

end Verdant

namespace Verdant

/-- A composite image carrying the two default index bands. -/
def imgNB : EEImage := { bands := ["ndvi", "nbr"] }

/-- Composites for the four configured periods. -/
def composites4 : List (String × EEImage) :=
  [("1990s", imgNB), ("2000s", imgNB), ("2010s", imgNB), ("present", imgNB)]

/-- Composites for the reference period and one comparison period. -/
def composites2 : List (String × EEImage) :=
  [("1990s", imgNB), ("2000s", imgNB)]

end Verdant

/-- C7: comparison-matrix completeness.  With the reference period present
and a nonempty index list, `create_change_analysis` succeeds and returns
exactly one entry per non-reference period, keyed `<reference>_to_<period>`
with the comparison period never the reference; concretely, for periods
{1990s, 2000s, 2010s, present} with reference 1990s (and the default
indices) it returns exactly the keys 1990s_to_2000s, 1990s_to_2010s,
1990s_to_present. -/
theorem comparison_matrix_complete (composites : List (String × Verdant.EEImage))
    (i : String) (is : List String) (ref : String) (baseline : Verdant.EEImage)
    (hlook : Verdant.lookupComposite composites ref = some baseline) :
    (∃ out, Verdant.create_change_analysis composites (some (i :: is)) ref = .ok out ∧
      out.map Prod.fst =
        ((composites.map Prod.fst).filter (fun p => ¬ p = ref)).map
          (fun p => ref ++ "_to_" ++ p) ∧
      out.length = ((composites.map Prod.fst).filter (fun p => ¬ p = ref)).length ∧
      ∀ e ∈ out, ∃ period, ¬ period = ref ∧ e.1 = ref ++ "_to_" ++ period) ∧
    (∃ out4, Verdant.create_change_analysis Verdant.composites4 none "1990s" = .ok out4 ∧
      out4.map Prod.fst = ["1990s_to_2000s", "1990s_to_2010s", "1990s_to_present"] ∧
      out4.length = 3) := by
  constructor
  · have hca : Verdant.create_change_analysis composites (some (i :: is)) ref =
        Verdant.changeEntries baseline (i :: is) ref composites := by
      simp [Verdant.create_change_analysis, hlook]
    rw [hca, Verdant.changeEntries_cons_indices]
    refine ⟨_, rfl, Verdant.keys_of_entry_map composites ref _, ?_, ?_⟩
    · have hlen := congrArg List.length (Verdant.keys_of_entry_map composites ref
        (fun p => Verdant.setProps (Verdant.combinedChange baseline p.2 i is)
          [("reference_period", [ref]),
           ("comparison_period", [p.1]),
           ("indices", i :: is)]))
      simpa using hlen
    · intro e he
      obtain ⟨p, hpfil, hpe⟩ := List.mem_map.mp he
      refine ⟨p.1, ?_, by rw [← hpe]⟩
      have := (List.mem_filter.mp hpfil).2
      simpa using this
  · exact ⟨_, rfl, rfl, rfl⟩

/-- Witness for C7: the four configured periods with reference 1990s. -/
theorem comparison_matrix_complete_witness :
    Verdant.lookupComposite Verdant.composites4 "1990s" = some Verdant.imgNB ∧
    (∃ out, Verdant.create_change_analysis Verdant.composites4
        (some ["ndvi"]) "1990s" = .ok out ∧
      out.map Prod.fst =
        ((Verdant.composites4.map Prod.fst).filter (fun p => ¬ p = "1990s")).map
          (fun p => "1990s" ++ "_to_" ++ p)) := by
  have hlook : Verdant.lookupComposite Verdant.composites4 "1990s" =
      some Verdant.imgNB := rfl
  obtain ⟨⟨out, hout, hkeys, _, _⟩, _⟩ :=
    comparison_matrix_complete Verdant.composites4 "ndvi" [] "1990s"
      Verdant.imgNB hlook
  exact ⟨hlook, out, hout, hkeys⟩

/-- C8 counterexample: with composites for the reference period 1990s and
one further period 2000s, calling `create_change_analysis` with an empty
(non-None) indices list raises an IndexError (`period_changes[0]` on an
empty list) instead of succeeding with a zero-band artifact. -/
theorem empty_indices_crash_counterexample :
    Verdant.create_change_analysis Verdant.composites2 (some []) "1990s" =
      .error "list index out of range" := rfl

/-- C8 amended: with the reference period present, an empty (non-None)
indices list makes `create_change_analysis` raise an IndexError as soon as
the composites map contains any non-reference period; only when the
reference is the sole period does the call succeed, with an empty result. -/
theorem empty_indices_raises (composites : List (String × Verdant.EEImage))
    (ref : String) (baseline : Verdant.EEImage)
    (hlook : Verdant.lookupComposite composites ref = some baseline) :
    ((∃ p ∈ composites, ¬ p.1 = ref) →
      Verdant.create_change_analysis composites (some []) ref =
        .error "list index out of range") ∧
    ((∀ p ∈ composites, p.1 = ref) →
      Verdant.create_change_analysis composites (some []) ref = .ok []) := by
  have hca : Verdant.create_change_analysis composites (some []) ref =
      Verdant.changeEntries baseline [] ref composites := by
    simp [Verdant.create_change_analysis, hlook]
  rw [hca]
  exact Verdant.changeEntries_nil_indices baseline ref composites

/-- Witness for the amended C8 theorem, on both sides: the two-period
composites raise, the reference-only composites yield an empty result. -/
theorem empty_indices_raises_witness :
    Verdant.lookupComposite Verdant.composites2 "1990s" = some Verdant.imgNB ∧
    Verdant.create_change_analysis Verdant.composites2 (some []) "1990s" =
      .error "list index out of range" ∧
    Verdant.create_change_analysis [("1990s", Verdant.imgNB)] (some []) "1990s" =
      .ok [] := by
  have hlook : Verdant.lookupComposite Verdant.composites2 "1990s" =
      some Verdant.imgNB := rfl
  have hlook1 : Verdant.lookupComposite [("1990s", Verdant.imgNB)] "1990s" =
      some Verdant.imgNB := rfl
  refine ⟨hlook, ?_, ?_⟩
  · exact (empty_indices_raises Verdant.composites2 "1990s" Verdant.imgNB hlook).1
      ⟨("2000s", Verdant.imgNB), by simp [Verdant.composites2], by simp⟩
  · exact (empty_indices_raises [("1990s", Verdant.imgNB)] "1990s"
      Verdant.imgNB hlook1).2 (by
        intro p hp
        simp only [List.mem_singleton] at hp
        subst hp
        rfl)
